import Mathlib

/-!
Verification of the three-address code generator of the Mini-C compiler
(`src/MiniCCompiler/ast.h`).

The C++ code generator walks an AST (classes `VarNode`, `ConstNode`,
`UnaryOpNode`, `BinaryOpNode`, `AssignNode`, `FuncCallNode`, `ExprStmtNode`,
`BlockNode`, `IfNode`, `WhileNode`, `ForNode`, `ReturnNode`, `DeclNode`,
`FuncDeclNode`, `ProgramNode`) and emits one textual instruction per line to
an output stream, threading four pieces of mutable state through every
`generate_code` call:

  * `symbol_to_temp : map<string,string>` - the symbol cache,
  * `temp_count : int&` - the temporary counter,
  * `label_count : int&` - the label counter,
  * the `VarNode` statics `force_fresh_load : bool` and
    `last_access : map<string,string>`.

This development embeds that generator shallowly: the state is the `Ctx`
structure, each emitted line is an `Instr` (with `Instr.render` producing the
exact text the C++ writes), and each `generate_code` member function becomes
one equation of the mutually recursive functions `genExpr`, `genCallArgs`,
`genStmt`, `genStmts`, `genOptStmt`, `genOptExpr`, `genForInit`,
`genForCondInner`, `genForCond`, plus `genFuncDecl`, `genProgUnit` and
`genProgram`.  `std::map` becomes an association list with unique keys
(`mapLookup` / `mapInsert`); emission to the stream becomes the `out` list of
a result, in emission order.
-/

namespace MiniC

/-- One line of emitted three-address code.  Each constructor corresponds to
one `outcode <<` statement of `ast.h`; labels are kept as the counter value
`k` that the C++ turns into the string `"L" + to_string(k)`. -/
inductive Instr where
  | assign (lhs rhs : String)
  | ifGoto (cond : String) (target : Nat)
  | goto (target : Nat)
  | label (l : Nat)
  | param (t : String)
  | callVoid (fname : String) (nargs : Nat)
  | retVal (v : String)
  | retVoid
  | comment (text : String)
  | blank
deriving DecidableEq, Repr

/-- The exact text the C++ generator writes for an instruction (one line). -/
def Instr.render : Instr → String
  | .assign l r => l ++ " = " ++ r
  | .ifGoto c t => "if " ++ c ++ " goto L" ++ toString t
  | .goto t => "goto L" ++ toString t
  | .label l => "L" ++ toString l ++ ":"
  | .param t => "param " ++ t
  | .callVoid f n => "call " ++ f ++ ", " ++ toString n
  | .retVal v => "return " ++ v
  | .retVoid => "return"
  | .comment s => "// " ++ s
  | .blank => ""

/-- The mutable state threaded through every `generate_code` call:
the symbol cache `symbol_to_temp`, the two counters, and the two
`VarNode` statics `force_fresh_load` and `last_access`. -/
structure Ctx where
  symbol_to_temp : List (String × String)
  temp_count : Nat
  label_count : Nat
  force_fresh_load : Bool
  last_access : List (String × String)
deriving DecidableEq, Repr

/-- Reading `m.count(k) ? m[k] : none` on a `std::map` modelled as an
association list. -/
def mapLookup (m : List (String × String)) (k : String) : Option String :=
  match m with
  | [] => none
  | (k', v) :: rest => if k' = k then some v else mapLookup rest k

/-- `m[k] = v` on a `std::map` modelled as an association list: update in
place when the key is present, append otherwise (keys stay unique). -/
def mapInsert (m : List (String × String)) (k v : String) : List (String × String) :=
  match m with
  | [] => [(k, v)]
  | (k', v') :: rest => if k' = k then (k, v) :: rest else (k', v') :: mapInsert rest k v

mutual
/-- Expression nodes of `ast.h`: `VarNode` (with its optional subscript),
`ConstNode`, `UnaryOpNode`, `BinaryOpNode`, `AssignNode` (whose left-hand
side is the name/type/subscript of a `VarNode`), and `FuncCallNode`.
The `ty`/`lhsTy` fields carry the `node_type` strings set by the parser. -/
inductive Expr where
  | var (name ty : String) (index : Option Expr)
  | const (value ty : String)
  | unop (op : String) (operand : Expr) (ty : String)
  | binop (op : String) (left right : Expr) (ty : String)
  | assign (lhsName lhsTy : String) (lhsIndex : Option Expr) (rhs : Expr) (ty : String)
  | call (fname : String) (args : List Expr) (ty : String)

/-- Statement nodes of `ast.h`: `ExprStmtNode` (nullable expression),
`BlockNode`, `IfNode` (nullable branches), `WhileNode` (nullable body),
`ForNode` (nullable init/cond/update/body, init and cond being arbitrary
`ASTNode*` probed by `dynamic_cast`), `ReturnNode` and `DeclNode`. -/
inductive Stmt where
  | exprStmt (e : Option Expr)
  | block (stmts : List Stmt)
  | ifStmt (cond : Expr) (thenB elseB : Option Stmt)
  | whileStmt (cond : Expr) (body : Option Stmt)
  | forStmt (finit fcond : Option ForPart) (update : Option Expr) (body : Option Stmt)
  | ret (e : Option Expr)
  | decl (ty : String) (vars : List (String × Nat))

/-- An `ASTNode*` stored in a `ForNode` init/cond slot: the C++ probes it
with `dynamic_cast<StmtNode*>` / `dynamic_cast<ExprNode*>`. -/
inductive ForPart where
  | stmt (s : Stmt)
  | expr (e : Expr)
end

/-- Result of translating an expression: the returned temporary name, the
updated state, and the instructions emitted (in emission order). -/
structure ERes where
  ret : String
  ctx : Ctx
  out : List Instr
deriving DecidableEq, Repr

/-- Result of translating a statement (statements return `""` in the C++,
so only the state and the emitted instructions remain). -/
structure SRes where
  ctx : Ctx
  out : List Instr
deriving DecidableEq, Repr

/-- The `ForNode` condition epilogue `symbol_to_temp.clear(); for (kv :
last_access) symbol_to_temp[kv.first] = kv.second;`: rebuild the cache from
the recorded accesses. -/
def copyMap (src : List (String × String)) : List (String × String) :=
  src.foldl (fun m kv => mapInsert m kv.1 kv.2) []

/-- The three consecutive `"L" + to_string(label_count++)` allocations at
the head of `IfNode`, `WhileNode` and `ForNode` code generation: the labels
are the three numbers starting at the old counter value, and the counter
advances by three. -/
def bumpLabels (c : Ctx) : Ctx := { c with label_count := c.label_count + 3 }

@[simp] theorem bumpLabels_symbol_to_temp (c : Ctx) :
    (bumpLabels c).symbol_to_temp = c.symbol_to_temp := rfl
@[simp] theorem bumpLabels_temp_count (c : Ctx) :
    (bumpLabels c).temp_count = c.temp_count := rfl
@[simp] theorem bumpLabels_label_count (c : Ctx) :
    (bumpLabels c).label_count = c.label_count + 3 := rfl
@[simp] theorem bumpLabels_force_fresh_load (c : Ctx) :
    (bumpLabels c).force_fresh_load = c.force_fresh_load := rfl
@[simp] theorem bumpLabels_last_access (c : Ctx) :
    (bumpLabels c).last_access = c.last_access := rfl

/-- `VarNode::clear_last_access(); VarNode::set_force_fresh(true);` -
the state change when `ForNode` starts translating a present condition. -/
def condEntry (c : Ctx) : Ctx := { c with last_access := [], force_fresh_load := true }

@[simp] theorem condEntry_symbol_to_temp (c : Ctx) :
    (condEntry c).symbol_to_temp = c.symbol_to_temp := rfl
@[simp] theorem condEntry_temp_count (c : Ctx) :
    (condEntry c).temp_count = c.temp_count := rfl
@[simp] theorem condEntry_label_count (c : Ctx) :
    (condEntry c).label_count = c.label_count := rfl
@[simp] theorem condEntry_force_fresh_load (c : Ctx) :
    (condEntry c).force_fresh_load = true := rfl
@[simp] theorem condEntry_last_access (c : Ctx) :
    (condEntry c).last_access = [] := rfl

/-- `VarNode::set_force_fresh(false); symbol_to_temp.clear();` followed by
the copy loop over `last_access` - the state change after `ForNode`
finishes translating a present condition. -/
def condExit (c : Ctx) : Ctx :=
  { c with force_fresh_load := false, symbol_to_temp := copyMap c.last_access }

@[simp] theorem condExit_symbol_to_temp (c : Ctx) :
    (condExit c).symbol_to_temp = copyMap c.last_access := rfl
@[simp] theorem condExit_temp_count (c : Ctx) :
    (condExit c).temp_count = c.temp_count := rfl
@[simp] theorem condExit_label_count (c : Ctx) :
    (condExit c).label_count = c.label_count := rfl
@[simp] theorem condExit_force_fresh_load (c : Ctx) :
    (condExit c).force_fresh_load = false := rfl
@[simp] theorem condExit_last_access (c : Ctx) :
    (condExit c).last_access = c.last_access := rfl

/-- `symbol_to_temp.clear();` - the "new function scope" reset performed by
`FuncDeclNode::generate_code` (nothing else is reset). -/
def funcEntry (c : Ctx) : Ctx := { c with symbol_to_temp := [] }

@[simp] theorem funcEntry_symbol_to_temp (c : Ctx) :
    (funcEntry c).symbol_to_temp = [] := rfl
@[simp] theorem funcEntry_temp_count (c : Ctx) :
    (funcEntry c).temp_count = c.temp_count := rfl
@[simp] theorem funcEntry_label_count (c : Ctx) :
    (funcEntry c).label_count = c.label_count := rfl
@[simp] theorem funcEntry_force_fresh_load (c : Ctx) :
    (funcEntry c).force_fresh_load = c.force_fresh_load := rfl
@[simp] theorem funcEntry_last_access (c : Ctx) :
    (funcEntry c).last_access = c.last_access := rfl

mutual

/-- `generate_code` of the expression classes of `ast.h`.

* `.var _ _ none` / `.var _ _ (some _)`: `VarNode::generate_code` (lines
  51-69) - a scalar access reuses the cached temporary when
  `force_fresh_load` is clear and the cache holds the name (still bumping
  `temp_count`), otherwise a fresh temporary is allocated, the load is
  emitted (`t = name` or, allocating the temporary before translating the
  subscript, `t = name[idx]`), and `symbol_to_temp[name]` is set; in every
  branch `last_access[name]` records the chosen temporary.
* `.const`: `ConstNode::generate_code` - fresh temporary, `t = literal`.
* `.unop`: `UnaryOpNode::generate_code` - operand, fresh temporary,
  `t = OPval`.
* `.binop`: `BinaryOpNode::generate_code` - left, then right, fresh
  temporary, `t = l OP r`.
* `.assign`: `AssignNode::generate_code` - right-hand side first; an indexed
  target translates its subscript and emits `name[idx] = rval` leaving the
  cache alone, a scalar target emits `name = rval` and sets
  `symbol_to_temp[name] = rval`; the value is `rval`.
* `.call`: `FuncCallNode::generate_code` (lines 520-546) - arguments via
  `genCallArgs`, then `call f, n` for a void result type or a fresh
  temporary and `t = call f, n` otherwise. -/
def genExpr : Expr → Ctx → ERes
  | .var name _ty none, c =>
    match (if c.force_fresh_load then none else mapLookup c.symbol_to_temp name) with
    | some temp =>
        { ret := temp,
          ctx := { c with temp_count := c.temp_count + 1,
                          last_access := mapInsert c.last_access name temp },
          out := [] }
    | none =>
        let temp := "t" ++ toString c.temp_count
        { ret := temp,
          ctx := { c with temp_count := c.temp_count + 1,
                          symbol_to_temp := mapInsert c.symbol_to_temp name temp,
                          last_access := mapInsert c.last_access name temp },
          out := [.assign temp name] }
  | .var name _ty (some ie), c =>
    let temp := "t" ++ toString c.temp_count
    let r := genExpr ie { c with temp_count := c.temp_count + 1 }
    { ret := temp,
      ctx := { r.ctx with symbol_to_temp := mapInsert r.ctx.symbol_to_temp name temp,
                          last_access := mapInsert r.ctx.last_access name temp },
      out := r.out ++ [.assign temp (name ++ "[" ++ r.ret ++ "]")] }
  | .const v _ty, c =>
    let temp := "t" ++ toString c.temp_count
    { ret := temp, ctx := { c with temp_count := c.temp_count + 1 }, out := [.assign temp v] }
  | .unop op e _ty, c =>
    let r := genExpr e c
    let temp := "t" ++ toString r.ctx.temp_count
    { ret := temp, ctx := { r.ctx with temp_count := r.ctx.temp_count + 1 },
      out := r.out ++ [.assign temp (op ++ r.ret)] }
  | .binop op l rr _ty, c =>
    let r1 := genExpr l c
    let r2 := genExpr rr r1.ctx
    let temp := "t" ++ toString r2.ctx.temp_count
    { ret := temp, ctx := { r2.ctx with temp_count := r2.ctx.temp_count + 1 },
      out := r1.out ++ r2.out ++ [.assign temp (r1.ret ++ " " ++ op ++ " " ++ r2.ret)] }
  | .assign lname _lty none rhs _ty, c =>
    let r := genExpr rhs c
    { ret := r.ret,
      ctx := { r.ctx with symbol_to_temp := mapInsert r.ctx.symbol_to_temp lname r.ret },
      out := r.out ++ [.assign lname r.ret] }
  | .assign lname _lty (some ie) rhs _ty, c =>
    let r := genExpr rhs c
    let ri := genExpr ie r.ctx
    { ret := r.ret, ctx := ri.ctx,
      out := r.out ++ ri.out ++ [.assign (lname ++ "[" ++ ri.ret ++ "]") r.ret] }
  | .call f args ty, c =>
    let ra := genCallArgs args c
    if ty = "void" then
      { ret := "", ctx := ra.ctx, out := ra.out ++ [.callVoid f args.length] }
    else
      let temp := "t" ++ toString ra.ctx.temp_count
      { ret := temp, ctx := { ra.ctx with temp_count := ra.ctx.temp_count + 1 },
        out := ra.out ++ [.assign temp ("call " ++ f ++ ", " ++ toString args.length)] }

/-- The argument loop of `FuncCallNode::generate_code` (lines 522-536): an
argument that is a `VarNode` gets a fresh temporary unconditionally (the
cache and `last_access` are bypassed entirely), loading `t = name` or
`t = name[idx]`; any other argument is translated normally; after each
argument `param t` is emitted. -/
def genCallArgs : List Expr → Ctx → SRes
  | [], c => { ctx := c, out := [] }
  | .var name _ty none :: rest, c =>
      let argTemp := "t" ++ toString c.temp_count
      let r := genCallArgs rest { c with temp_count := c.temp_count + 1 }
      { ctx := r.ctx, out := [.assign argTemp name, .param argTemp] ++ r.out }
  | .var name _ty (some ie) :: rest, c =>
      let argTemp := "t" ++ toString c.temp_count
      let ri := genExpr ie { c with temp_count := c.temp_count + 1 }
      let r := genCallArgs rest ri.ctx
      { ctx := r.ctx,
        out := ri.out ++ [.assign argTemp (name ++ "[" ++ ri.ret ++ "]"), .param argTemp] ++ r.out }
  | e :: rest, c =>
      let re := genExpr e c
      let r := genCallArgs rest re.ctx
      { ctx := r.ctx, out := re.out ++ [.param re.ret] ++ r.out }

/-- `generate_code` of the statement classes of `ast.h`.

* `.exprStmt`: `ExprStmtNode` - translate the wrapped expression (if any)
  and discard its value.
* `.block`: `BlockNode` - the statements in order.
* `.ifStmt`: `IfNode` (lines 249-271) - condition, three fresh labels
  `Lt, Lt+1, Lt+2`, then `if c goto Lt`, `goto Lt+1`, `Lt:`, then-branch,
  `goto Lt+2`, `Lt+1:`, else-branch (if any), `Lt+2:`.
* `.whileStmt`: `WhileNode` (lines 290-307) - three fresh labels, `Ls:`,
  ordinary condition translation, `if c goto Ls+1`, `goto Ls+2`, `Ls+1:`,
  body, `goto Ls`, `Ls+2:`.
* `.forStmt`: `ForNode` (lines 330-369) - init unit, three fresh labels,
  `Ls:`, the condition protocol of `genForCond`, `if c goto Ls+1`,
  `goto Ls+2`, `Ls+1:`, body, update expression, `goto Ls`, `Ls+2:`.
* `.ret`: `ReturnNode` - `return v` or bare `return`.
* `.decl`: `DeclNode` - one `// Declaration:` comment per declared
  variable, with `[size]` appended when the recorded size is positive. -/
def genStmt : Stmt → Ctx → SRes
  | .exprStmt none, c => { ctx := c, out := [] }
  | .exprStmt (some e), c =>
      let r := genExpr e c
      { ctx := r.ctx, out := r.out }
  | .block ss, c => genStmts ss c
  | .ifStmt cond thenB elseB, c =>
      let rc := genExpr cond c
      let tL := rc.ctx.label_count
      let rt := genOptStmt thenB (bumpLabels rc.ctx)
      let re := genOptStmt elseB rt.ctx
      { ctx := re.ctx,
        out := rc.out ++ [.ifGoto rc.ret tL, .goto (tL + 1), .label tL] ++ rt.out ++
               [.goto (tL + 2), .label (tL + 1)] ++ re.out ++ [.label (tL + 2)] }
  | .whileStmt cond body, c =>
      let sL := c.label_count
      let rc := genExpr cond (bumpLabels c)
      let rb := genOptStmt body rc.ctx
      { ctx := rb.ctx,
        out := [.label sL] ++ rc.out ++ [.ifGoto rc.ret (sL + 1), .goto (sL + 2), .label (sL + 1)] ++
               rb.out ++ [.goto sL, .label (sL + 2)] }
  | .forStmt finit fcond update body, c =>
      let ri := genForInit finit c
      let sL := ri.ctx.label_count
      let rc := genForCond fcond (bumpLabels ri.ctx)
      let rb := genOptStmt body rc.ctx
      let ru := genOptExpr update rb.ctx
      { ctx := ru.ctx,
        out := ri.out ++ [.label sL] ++ rc.out ++
               [.ifGoto rc.ret (sL + 1), .goto (sL + 2), .label (sL + 1)] ++
               rb.out ++ ru.out ++ [.goto sL, .label (sL + 2)] }
  | .ret none, c => { ctx := c, out := [.retVoid] }
  | .ret (some e), c =>
      let r := genExpr e c
      { ctx := r.ctx, out := r.out ++ [.retVal r.ret] }
  | .decl ty vars, c =>
      { ctx := c,
        out := vars.map (fun v =>
          .comment ("Declaration: " ++ ty ++ " " ++ v.1 ++
            (if 0 < v.2 then "[" ++ toString v.2 ++ "]" else ""))) }

/-- The statement loop of `BlockNode::generate_code`. -/
def genStmts : List Stmt → Ctx → SRes
  | [], c => { ctx := c, out := [] }
  | s :: rest, c =>
      let r := genStmt s c
      let rr := genStmts rest r.ctx
      { ctx := rr.ctx, out := r.out ++ rr.out }

/-- A null-checked `StmtNode*` child (`if (p) p->generate_code(...)`). -/
def genOptStmt : Option Stmt → Ctx → SRes
  | none, c => { ctx := c, out := [] }
  | some s, c => genStmt s c

/-- A null-checked `ExprNode*` child whose value is discarded (the `ForNode`
update expression). -/
def genOptExpr : Option Expr → Ctx → SRes
  | none, c => { ctx := c, out := [] }
  | some e, c =>
      let r := genExpr e c
      { ctx := r.ctx, out := r.out }

/-- The `ForNode` init unit (lines 332-335): probe with
`dynamic_cast<StmtNode*>` then `dynamic_cast<ExprNode*>` and translate. -/
def genForInit : Option ForPart → Ctx → SRes
  | none, c => { ctx := c, out := [] }
  | some (.stmt s), c => genStmt s c
  | some (.expr e), c =>
      let r := genExpr e c
      { ctx := r.ctx, out := r.out }

/-- The `dynamic_cast` chain on a present `ForNode` condition (lines
345-352): an `ExprStmtNode` is unwrapped to its inner expression (a null
inner expression leaves `cond_temp = "1"`), otherwise an `ExprNode` is
translated for its value, otherwise a `StmtNode` is translated with
`cond_temp` left at `"1"`. -/
def genForCondInner : ForPart → Ctx → ERes
  | .stmt (.exprStmt (some e)), c => genExpr e c
  | .stmt (.exprStmt none), c => { ret := "1", ctx := c, out := [] }
  | .expr e, c => genExpr e c
  | .stmt s, c =>
      let r := genStmt s c
      { ret := "1", ctx := r.ctx, out := r.out }

/-- The `ForNode` condition protocol (lines 341-358): `cond_temp` defaults
to `"1"`; when a condition unit is present, `last_access` is cleared and
`force_fresh_load` set, the unit is translated by `genForCondInner`,
`force_fresh_load` is cleared again, and the whole symbol cache is replaced
by the recorded `last_access` entries. -/
def genForCond : Option ForPart → Ctx → ERes
  | none, c => { ret := "1", ctx := c, out := [] }
  | some cp, c =>
      let r := genForCondInner cp (condEntry c)
      { ret := r.ret, ctx := condExit r.ctx, out := r.out }

end

/-- `FuncDeclNode`: return type, name, `(type, name)` parameter list and the
(nullable) body block. -/
structure FuncDecl where
  return_type : String
  name : String
  params : List (String × String)
  body : Option Stmt

/-- The header comment `// Function: ret name(type a, type b)` emitted by
`FuncDeclNode::generate_code`. -/
def funcHeader (f : FuncDecl) : Instr :=
  Instr.comment ("Function: " ++ f.return_type ++ " " ++ f.name ++ "(" ++
    String.intercalate ", " (f.params.map fun p => p.1 ++ " " ++ p.2) ++ ")")

/-- `FuncDeclNode::generate_code` (lines 443-459): emit the header comment,
clear the symbol cache (`symbol_to_temp.clear()` - the counters and the
`VarNode` statics are left untouched), translate the body, and emit the
blank separator line. -/
def genFuncDecl (f : FuncDecl) (c : Ctx) : SRes :=
  let rb := genOptStmt f.body (funcEntry c)
  { ctx := rb.ctx, out := funcHeader f :: rb.out ++ [Instr.blank] }

/-- A top-level unit held by `ProgramNode`: a function declaration or a
top-level statement (e.g. a global `DeclNode`). -/
inductive ProgUnit where
  | pfunc (f : FuncDecl)
  | pstmt (s : Stmt)

/-- Translation of one `ProgramNode` unit. -/
def genProgUnit : ProgUnit → Ctx → SRes
  | .pfunc f, c => genFuncDecl f c
  | .pstmt s, c => genStmt s c

/-- `ProgramNode::generate_code`: translate the units in order, threading
the single shared state through all of them. -/
def genProgram : List ProgUnit → Ctx → SRes
  | [], c => { ctx := c, out := [] }
  | u :: rest, c =>
      let r := genProgUnit u c
      let rr := genProgram rest r.ctx
      { ctx := rr.ctx, out := r.out ++ rr.out }

/-- The state at the start of a whole-program translation: empty cache,
both counters zero, `force_fresh_load` clear, empty `last_access`. -/
def initCtx : Ctx :=
  { symbol_to_temp := [], temp_count := 0, label_count := 0,
    force_fresh_load := false, last_access := [] }

/-- The label numbers of the label-definition lines (`Lk:`) of an emitted
instruction sequence, in emission order. -/
def labelsOf (out : List Instr) : List Nat :=
  out.filterMap fun i =>
    match i with
    | .label l => some l
    | _ => none

/-! ### Lemmas about the helpers -/

@[simp] theorem labelsOf_nil : labelsOf [] = [] := rfl

@[simp] theorem labelsOf_append (a b : List Instr) :
    labelsOf (a ++ b) = labelsOf a ++ labelsOf b := by
  simp [labelsOf]

@[simp] theorem labelsOf_cons_assign (x y : String) (out : List Instr) :
    labelsOf (.assign x y :: out) = labelsOf out := rfl

@[simp] theorem labelsOf_cons_ifGoto (x : String) (t : Nat) (out : List Instr) :
    labelsOf (.ifGoto x t :: out) = labelsOf out := rfl

@[simp] theorem labelsOf_cons_goto (t : Nat) (out : List Instr) :
    labelsOf (.goto t :: out) = labelsOf out := rfl

@[simp] theorem labelsOf_cons_label (l : Nat) (out : List Instr) :
    labelsOf (.label l :: out) = l :: labelsOf out := rfl

@[simp] theorem labelsOf_cons_param (t : String) (out : List Instr) :
    labelsOf (.param t :: out) = labelsOf out := rfl

@[simp] theorem labelsOf_cons_callVoid (f : String) (n : Nat) (out : List Instr) :
    labelsOf (.callVoid f n :: out) = labelsOf out := rfl

@[simp] theorem labelsOf_cons_retVal (v : String) (out : List Instr) :
    labelsOf (.retVal v :: out) = labelsOf out := rfl

@[simp] theorem labelsOf_cons_retVoid (out : List Instr) :
    labelsOf (.retVoid :: out) = labelsOf out := rfl

@[simp] theorem labelsOf_cons_comment (s : String) (out : List Instr) :
    labelsOf (.comment s :: out) = labelsOf out := rfl

@[simp] theorem labelsOf_cons_blank (out : List Instr) :
    labelsOf (.blank :: out) = labelsOf out := rfl

@[simp] theorem labelsOf_map_comment {α : Type} (g : α → String) (l : List α) :
    labelsOf (l.map fun v => Instr.comment (g v)) = [] := by
  induction l with
  | nil => rfl
  | cons a l ih => simpa using ih

@[simp] theorem mapLookup_mapInsert_self (m : List (String × String)) (k v : String) :
    mapLookup (mapInsert m k v) k = some v := by
  induction m with
  | nil => simp [mapInsert, mapLookup]
  | cons p rest ih =>
      obtain ⟨k', v'⟩ := p
      by_cases h : k' = k <;> simp [mapInsert, mapLookup, h, ih]

theorem mem_keys_mapInsert (m : List (String × String)) (k v a : String) :
    a ∈ (mapInsert m k v).map Prod.fst ↔ a = k ∨ a ∈ m.map Prod.fst := by
  induction m with
  | nil => simp [mapInsert]
  | cons p rest ih =>
      obtain ⟨k', v'⟩ := p
      by_cases h : k' = k
      · subst h; simp [mapInsert]
      · simp [mapInsert, h, ih]; tauto

theorem keys_nodup_mapInsert (m : List (String × String)) (k v : String)
    (h : (m.map Prod.fst).Nodup) : ((mapInsert m k v).map Prod.fst).Nodup := by
  induction m with
  | nil => simp [mapInsert]
  | cons p rest ih =>
      obtain ⟨k', v'⟩ := p
      simp only [List.map_cons, List.nodup_cons] at h
      by_cases hk : k' = k
      · subst hk
        simpa [mapInsert] using h
      · simp only [mapInsert, if_neg hk, List.map_cons, List.nodup_cons]
        refine ⟨?_, ih h.2⟩
        intro hmem
        rcases (mem_keys_mapInsert rest k v k').mp hmem with h' | h'
        · exact hk h'
        · exact h.1 h'

theorem mapInsert_eq_append (m : List (String × String)) (k v : String)
    (h : k ∉ m.map Prod.fst) : mapInsert m k v = m ++ [(k, v)] := by
  induction m with
  | nil => rfl
  | cons p rest ih =>
      obtain ⟨k', v'⟩ := p
      simp only [List.map_cons, List.mem_cons] at h
      push_neg at h
      have hk : ¬ k' = k := fun hh => h.1 hh.symm
      simp [mapInsert, hk, ih h.2]

theorem copyMap_aux (l : List (String × String)) :
    ∀ acc : List (String × String), (l.map Prod.fst).Nodup →
      (∀ a ∈ l.map Prod.fst, a ∉ acc.map Prod.fst) →
      l.foldl (fun m kv => mapInsert m kv.1 kv.2) acc = acc ++ l := by
  induction l with
  | nil => intro acc _ _; simp
  | cons p rest ih =>
      intro acc hn hd
      obtain ⟨k, v⟩ := p
      simp only [List.map_cons, List.nodup_cons] at hn
      have hk_acc : k ∉ acc.map Prod.fst := hd k (by simp)
      rw [List.foldl_cons]
      have hstep : mapInsert acc k v = acc ++ [(k, v)] := mapInsert_eq_append acc k v hk_acc
      rw [hstep, ih (acc ++ [(k, v)]) hn.2 ?_]
      · simp
      · intro a ha
        simp only [List.map_append, List.mem_append] at *
        push_neg
        constructor
        · exact hd a (by simp [ha])
        · simp only [List.map_cons, List.map_nil, List.mem_singleton]
          intro hak
          subst hak
          exact hn.1 ha

theorem copyMap_eq_self (l : List (String × String))
    (h : (l.map Prod.fst).Nodup) : copyMap l = l := by
  simpa [copyMap] using copyMap_aux l [] h (by simp)

/-! ### The expression-level invariant

Expression translation never allocates a label, never emits a
label-definition line, never decreases the temporary counter, and preserves
uniqueness of the keys of `last_access`. -/

/-- Invariant relating the state `c` before and `c'` after one expression
translation step that emitted `out`. -/
def EOK (c c' : Ctx) (out : List Instr) : Prop :=
  c.temp_count ≤ c'.temp_count ∧ c'.label_count = c.label_count ∧ labelsOf out = [] ∧
  ((c.last_access.map Prod.fst).Nodup → (c'.last_access.map Prod.fst).Nodup)

theorem EOK_seq {c1 c2 c3 : Ctx} {o1 o2 : List Instr}
    (h1 : EOK c1 c2 o1) (h2 : EOK c2 c3 o2) : EOK c1 c3 (o1 ++ o2) :=
  ⟨le_trans h1.1 h2.1, by rw [h2.2.1, h1.2.1],
   by simp [h1.2.2.1, h2.2.2.1], fun h => h2.2.2.2 (h1.2.2.2 h)⟩

mutual

theorem genExpr_eok : ∀ (e : Expr) (c : Ctx), EOK c (genExpr e c).ctx (genExpr e c).out
  | .var name _ty none, c => by
      rcases h : (if c.force_fresh_load then none else mapLookup c.symbol_to_temp name) with _ | temp
      · simp only [genExpr, h]
        exact ⟨Nat.le_succ _, rfl, rfl, fun hn => keys_nodup_mapInsert _ _ _ hn⟩
      · simp only [genExpr, h]
        exact ⟨Nat.le_succ _, rfl, rfl, fun hn => keys_nodup_mapInsert _ _ _ hn⟩
  | .var name _ty (some ie), c => by
      have hi := genExpr_eok ie { c with temp_count := c.temp_count + 1 }
      obtain ⟨h1, h2, h3, h4⟩ := hi
      simp only [genExpr]
      simp only at h1 h2
      refine ⟨by dsimp only; omega, h2, by simp [h3], fun hn => keys_nodup_mapInsert _ _ _ (h4 hn)⟩
  | .const v _ty, c => by
      simp only [genExpr]
      exact ⟨Nat.le_succ _, rfl, rfl, fun hn => hn⟩
  | .unop op e _ty, c => by
      have hi := genExpr_eok e c
      obtain ⟨h1, h2, h3, h4⟩ := hi
      simp only [genExpr]
      exact ⟨by dsimp only; omega, h2, by simp [h3], h4⟩
  | .binop op l rr _ty, c => by
      have h1 := genExpr_eok l c
      have h2 := genExpr_eok rr (genExpr l c).ctx
      simp only [genExpr]
      exact ⟨by have ha := h1.1; have hb := h2.1; dsimp only; omega,
             by rw [h2.2.1, h1.2.1],
             by simp [h1.2.2.1, h2.2.2.1],
             fun hn => h2.2.2.2 (h1.2.2.2 hn)⟩
  | .assign lname _lty none rhs _ty, c => by
      have h1 := genExpr_eok rhs c
      simp only [genExpr]
      exact ⟨h1.1, h1.2.1, by simp [h1.2.2.1], h1.2.2.2⟩
  | .assign lname _lty (some ie) rhs _ty, c => by
      have h1 := genExpr_eok rhs c
      have h2 := genExpr_eok ie (genExpr rhs c).ctx
      simp only [genExpr]
      exact ⟨le_trans h1.1 h2.1, by rw [h2.2.1, h1.2.1],
             by simp [h1.2.2.1, h2.2.2.1],
             fun hn => h2.2.2.2 (h1.2.2.2 hn)⟩
  | .call f args ty, c => by
      have h1 := genCallArgs_eok args c
      simp only [genExpr]
      by_cases hv : ty = "void"
      · simp only [if_pos hv]
        exact ⟨h1.1, h1.2.1, by simp [h1.2.2.1], h1.2.2.2⟩
      · simp only [if_neg hv]
        exact ⟨by have := h1.1; dsimp only; omega, h1.2.1, by simp [h1.2.2.1], h1.2.2.2⟩

theorem genCallArgs_eok :
    ∀ (args : List Expr) (c : Ctx), EOK c (genCallArgs args c).ctx (genCallArgs args c).out
  | [], c => ⟨le_refl _, rfl, rfl, fun hn => hn⟩
  | .var name _ty none :: rest, c => by
      have h1 := genCallArgs_eok rest { c with temp_count := c.temp_count + 1 }
      obtain ⟨ha, hb, hc, hd⟩ := h1
      simp only at ha hb
      simp only [genCallArgs]
      exact ⟨by omega, hb, by simp [hc], hd⟩
  | .var name _ty (some ie) :: rest, c => by
      have h1 := genExpr_eok ie { c with temp_count := c.temp_count + 1 }
      have h2 := genCallArgs_eok rest (genExpr ie { c with temp_count := c.temp_count + 1 }).ctx
      obtain ⟨ha, hb, hc, hd⟩ := h1
      simp only at ha hb
      simp only [genCallArgs]
      exact ⟨by have := h2.1; omega, by rw [h2.2.1, hb],
             by simp [hc, h2.2.2.1], fun hn => h2.2.2.2 (hd hn)⟩
  | .const v t :: rest, c => by
      have h1 := genExpr_eok (.const v t) c
      have h2 := genCallArgs_eok rest (genExpr (.const v t) c).ctx
      simp only [genCallArgs]
      exact ⟨le_trans h1.1 h2.1, by rw [h2.2.1, h1.2.1],
             by simp [h1.2.2.1, h2.2.2.1], fun hn => h2.2.2.2 (h1.2.2.2 hn)⟩
  | .unop op e t :: rest, c => by
      have h1 := genExpr_eok (.unop op e t) c
      have h2 := genCallArgs_eok rest (genExpr (.unop op e t) c).ctx
      simp only [genCallArgs]
      exact ⟨le_trans h1.1 h2.1, by rw [h2.2.1, h1.2.1],
             by simp [h1.2.2.1, h2.2.2.1], fun hn => h2.2.2.2 (h1.2.2.2 hn)⟩
  | .binop op l rr t :: rest, c => by
      have h1 := genExpr_eok (.binop op l rr t) c
      have h2 := genCallArgs_eok rest (genExpr (.binop op l rr t) c).ctx
      simp only [genCallArgs]
      exact ⟨le_trans h1.1 h2.1, by rw [h2.2.1, h1.2.1],
             by simp [h1.2.2.1, h2.2.2.1], fun hn => h2.2.2.2 (h1.2.2.2 hn)⟩
  | .assign ln lt li rhs t :: rest, c => by
      have h1 := genExpr_eok (.assign ln lt li rhs t) c
      have h2 := genCallArgs_eok rest (genExpr (.assign ln lt li rhs t) c).ctx
      simp only [genCallArgs]
      exact ⟨le_trans h1.1 h2.1, by rw [h2.2.1, h1.2.1],
             by simp [h1.2.2.1, h2.2.2.1], fun hn => h2.2.2.2 (h1.2.2.2 hn)⟩
  | .call f as t :: rest, c => by
      have h1 := genExpr_eok (.call f as t) c
      have h2 := genCallArgs_eok rest (genExpr (.call f as t) c).ctx
      simp only [genCallArgs]
      exact ⟨le_trans h1.1 h2.1, by rw [h2.2.1, h1.2.1],
             by simp [h1.2.2.1, h2.2.2.1], fun hn => h2.2.2.2 (h1.2.2.2 hn)⟩

end

/-! ### The statement-level invariant

Any translation step moves both counters forward only; every
label-definition line `Lk:` it emits has `k` in the interval of label
numbers allocated during the step, and is emitted at most once. -/

/-- Invariant relating the state `c` before and `c'` after a translation
step that emitted `out`: counters are monotone, the label-definition lines
of `out` are confined to `[c.label_count, c'.label_count)` and each number
appears at most once, and uniqueness of the `last_access` keys is
preserved. -/
def GenOK (c c' : Ctx) (out : List Instr) : Prop :=
  c.temp_count ≤ c'.temp_count ∧
  c.label_count ≤ c'.label_count ∧
  (∀ l, (labelsOf out).count l ≤ if c.label_count ≤ l ∧ l < c'.label_count then 1 else 0) ∧
  ((c.last_access.map Prod.fst).Nodup → (c'.last_access.map Prod.fst).Nodup)

theorem GenOK.of_eok {c c' : Ctx} {out : List Instr} (h : EOK c c' out) : GenOK c c' out := by
  obtain ⟨h1, h2, h3, h4⟩ := h
  exact ⟨h1, le_of_eq h2.symm, fun l => by simp [h3], h4⟩

theorem GenOK.refl (c : Ctx) : GenOK c c [] :=
  ⟨le_refl _, le_refl _, fun l => by simp, id⟩

theorem GenOK.no_labels {c : Ctx} {out : List Instr} (h : labelsOf out = []) : GenOK c c out :=
  ⟨le_refl _, le_refl _, fun l => by simp [h], id⟩

theorem GenOK.extend_nolabel {c c' : Ctx} {o extra : List Instr}
    (h : GenOK c c' o) (he : labelsOf extra = []) : GenOK c c' (o ++ extra) := by
  obtain ⟨a, b, cnt, d⟩ := h
  exact ⟨a, b, fun l => by simpa [he] using cnt l, d⟩

theorem GenOK_seq {c1 c2 c3 : Ctx} {o1 o2 : List Instr}
    (h1 : GenOK c1 c2 o1) (h2 : GenOK c2 c3 o2) : GenOK c1 c3 (o1 ++ o2) := by
  obtain ⟨a1, b1, cnt1, d1⟩ := h1
  obtain ⟨a2, b2, cnt2, d2⟩ := h2
  refine ⟨le_trans a1 a2, le_trans b1 b2, fun l => ?_, fun h => d2 (d1 h)⟩
  have e1 := cnt1 l
  have e2 := cnt2 l
  simp only [labelsOf_append, List.count_append]
  split_ifs at * <;> omega

theorem genOptExpr_gok (oe : Option Expr) (c : Ctx) :
    GenOK c (genOptExpr oe c).ctx (genOptExpr oe c).out := by
  cases oe with
  | none => simp only [genOptExpr]; exact GenOK.refl c
  | some e => simp only [genOptExpr]; exact GenOK.of_eok (genExpr_eok e c)

set_option maxHeartbeats 1000000 in
mutual

theorem genStmt_gok : ∀ (s : Stmt) (c : Ctx), GenOK c (genStmt s c).ctx (genStmt s c).out
  | .exprStmt none, c => by simp only [genStmt]; exact GenOK.refl c
  | .exprStmt (some e), c => by
      simp only [genStmt]; exact GenOK.of_eok (genExpr_eok e c)
  | .block ss, c => by simp only [genStmt]; exact genStmts_gok ss c
  | .ifStmt cond thenB elseB, c => by
      simp only [genStmt]
      obtain ⟨hc1, hc2, hc3, hc4⟩ := genExpr_eok cond c
      obtain ⟨ht1, ht2, ht3, ht4⟩ := genOptStmt_gok thenB (bumpLabels (genExpr cond c).ctx)
      obtain ⟨he1, he2, he3, he4⟩ := genOptStmt_gok elseB
        (genOptStmt thenB (bumpLabels (genExpr cond c).ctx)).ctx
      simp only [bumpLabels_temp_count, bumpLabels_label_count,
        bumpLabels_last_access] at ht1 ht2 ht3 ht4
      refine ⟨by omega, by omega, fun l => ?_, fun hn => he4 (ht4 (hc4 hn))⟩
      have hT := ht3 l
      have hE := he3 l
      simp only [labelsOf_append, labelsOf_cons_ifGoto, labelsOf_cons_goto,
        labelsOf_cons_label, labelsOf_nil, hc3, List.count_append, List.count_cons,
        List.count_nil, List.nil_append, beq_iff_eq]
      split_ifs at * <;> omega
  | .whileStmt cond body, c => by
      simp only [genStmt]
      obtain ⟨hc1, hc2, hc3, hc4⟩ := genExpr_eok cond (bumpLabels c)
      obtain ⟨hb1, hb2, hb3, hb4⟩ := genOptStmt_gok body (genExpr cond (bumpLabels c)).ctx
      simp only [bumpLabels_temp_count, bumpLabels_label_count,
        bumpLabels_last_access] at hc1 hc2 hc3 hc4
      refine ⟨by omega, by omega, fun l => ?_, fun hn => hb4 (hc4 hn)⟩
      have hB := hb3 l
      simp only [labelsOf_append, labelsOf_cons_ifGoto, labelsOf_cons_goto,
        labelsOf_cons_label, labelsOf_nil, hc3, List.count_append, List.count_cons,
        List.count_nil, List.nil_append, beq_iff_eq]
      split_ifs at * <;> omega
  | .forStmt finit fcond update body, c => by
      simp only [genStmt]
      obtain ⟨hi1, hi2, hi3, hi4⟩ := genForInit_gok finit c
      obtain ⟨hc1, hc2, hc3, hc4⟩ := genForCond_gok fcond (bumpLabels (genForInit finit c).ctx)
      obtain ⟨hb1, hb2, hb3, hb4⟩ := genOptStmt_gok body
        (genForCond fcond (bumpLabels (genForInit finit c).ctx)).ctx
      obtain ⟨hu1, hu2, hu3, hu4⟩ := genOptExpr_gok update
        (genOptStmt body (genForCond fcond (bumpLabels (genForInit finit c).ctx)).ctx).ctx
      simp only [bumpLabels_temp_count, bumpLabels_label_count,
        bumpLabels_last_access] at hc1 hc2 hc3 hc4
      refine ⟨by omega, by omega, fun l => ?_, fun hn => hu4 (hb4 (hc4 (hi4 hn)))⟩
      have hI := hi3 l
      have hC := hc3 l
      have hB := hb3 l
      have hU := hu3 l
      simp only [labelsOf_append, labelsOf_cons_ifGoto, labelsOf_cons_goto,
        labelsOf_cons_label, labelsOf_nil, List.count_append, List.count_cons,
        List.count_nil, List.nil_append, beq_iff_eq]
      split_ifs at * <;> omega
  | .ret none, c => by simp only [genStmt]; exact GenOK.no_labels rfl
  | .ret (some e), c => by
      simp only [genStmt]
      exact GenOK.extend_nolabel (GenOK.of_eok (genExpr_eok e c)) rfl
  | .decl ty vars, c => by
      simp only [genStmt]
      exact GenOK.no_labels (by simp)

theorem genStmts_gok : ∀ (ss : List Stmt) (c : Ctx), GenOK c (genStmts ss c).ctx (genStmts ss c).out
  | [], c => by simp only [genStmts]; exact GenOK.refl c
  | s :: rest, c => by
      simp only [genStmts]
      exact GenOK_seq (genStmt_gok s c) (genStmts_gok rest (genStmt s c).ctx)

theorem genOptStmt_gok :
    ∀ (os : Option Stmt) (c : Ctx), GenOK c (genOptStmt os c).ctx (genOptStmt os c).out
  | none, c => by simp only [genOptStmt]; exact GenOK.refl c
  | some s, c => by simp only [genOptStmt]; exact genStmt_gok s c

theorem genForInit_gok :
    ∀ (fi : Option ForPart) (c : Ctx), GenOK c (genForInit fi c).ctx (genForInit fi c).out
  | none, c => by simp only [genForInit]; exact GenOK.refl c
  | some (.stmt s), c => by simp only [genForInit]; exact genStmt_gok s c
  | some (.expr e), c => by
      simp only [genForInit]; exact GenOK.of_eok (genExpr_eok e c)

theorem genForCondInner_gok :
    ∀ (cp : ForPart) (c : Ctx), GenOK c (genForCondInner cp c).ctx (genForCondInner cp c).out
  | .stmt (.exprStmt (some e)), c => by
      simp only [genForCondInner]; exact GenOK.of_eok (genExpr_eok e c)
  | .stmt (.exprStmt none), c => by
      simp only [genForCondInner]; exact GenOK.refl c
  | .expr e, c => by
      simp only [genForCondInner]; exact GenOK.of_eok (genExpr_eok e c)
  | .stmt (.block ss), c => by
      simp only [genForCondInner]; exact genStmt_gok (.block ss) c
  | .stmt (.ifStmt cond tB eB), c => by
      simp only [genForCondInner]; exact genStmt_gok (.ifStmt cond tB eB) c
  | .stmt (.whileStmt cond body), c => by
      simp only [genForCondInner]; exact genStmt_gok (.whileStmt cond body) c
  | .stmt (.forStmt fi fc u b), c => by
      simp only [genForCondInner]; exact genStmt_gok (.forStmt fi fc u b) c
  | .stmt (.ret oe), c => by
      simp only [genForCondInner]; exact genStmt_gok (.ret oe) c
  | .stmt (.decl ty vars), c => by
      simp only [genForCondInner]; exact genStmt_gok (.decl ty vars) c

theorem genForCond_gok :
    ∀ (fc : Option ForPart) (c : Ctx), GenOK c (genForCond fc c).ctx (genForCond fc c).out
  | none, c => by simp only [genForCond]; exact GenOK.refl c
  | some cp, c => by
      simp only [genForCond]
      obtain ⟨h1, h2, h3, h4⟩ := genForCondInner_gok cp (condEntry c)
      simp only [condEntry_temp_count, condEntry_label_count,
        condEntry_last_access] at h1 h2 h3 h4
      refine ⟨?_, ?_, fun l => ?_, fun _hn => ?_⟩
      · simpa using h1
      · simpa using h2
      · simpa using h3 l
      · simpa using h4 (by simp)

end

theorem genFuncDecl_gok (f : FuncDecl) (c : Ctx) :
    GenOK c (genFuncDecl f c).ctx (genFuncDecl f c).out := by
  simp only [genFuncDecl]
  obtain ⟨h1, h2, h3, h4⟩ := genOptStmt_gok f.body (funcEntry c)
  simp only [funcEntry_temp_count, funcEntry_label_count,
    funcEntry_last_access] at h1 h2 h3 h4
  refine ⟨h1, h2, fun l => ?_, h4⟩
  have := h3 l
  simp only [funcHeader, labelsOf_cons_comment, labelsOf_append, labelsOf_cons_blank,
    labelsOf_nil, List.count_append, List.count_nil]
  omega

theorem genProgUnit_gok (u : ProgUnit) (c : Ctx) :
    GenOK c (genProgUnit u c).ctx (genProgUnit u c).out := by
  cases u with
  | pfunc f => simp only [genProgUnit]; exact genFuncDecl_gok f c
  | pstmt s => simp only [genProgUnit]; exact genStmt_gok s c

theorem genProgram_gok (units : List ProgUnit) :
    ∀ c : Ctx, GenOK c (genProgram units c).ctx (genProgram units c).out := by
  induction units with
  | nil => intro c; simp only [genProgram]; exact GenOK.refl c
  | cons u rest ih =>
      intro c
      simp only [genProgram]
      exact GenOK_seq (genProgUnit_gok u c) (ih (genProgUnit u c).ctx)

/-! ### Facts about scalar variable reads -/

/-- A scalar `VarNode` read with `force_fresh_load` clear and a cache entry
for the name: the cached temporary is reused, `temp_count` still advances,
nothing is emitted, and `last_access` records the temporary. -/
theorem var_cached (name ty v : String) (c : Ctx)
    (h1 : c.force_fresh_load = false)
    (h2 : mapLookup c.symbol_to_temp name = some v) :
    genExpr (.var name ty none) c =
      { ret := v,
        ctx := { c with temp_count := c.temp_count + 1,
                        last_access := mapInsert c.last_access name v },
        out := [] } := by
  simp [genExpr, h1, h2]

/-- A scalar `VarNode` read that misses the cache (or runs under
`force_fresh_load`): a fresh temporary is allocated, the load is emitted,
and both maps record the temporary. -/
theorem var_uncached (name ty : String) (c : Ctx)
    (h : (if c.force_fresh_load then none else mapLookup c.symbol_to_temp name) = none) :
    genExpr (.var name ty none) c =
      { ret := "t" ++ toString c.temp_count,
        ctx := { c with temp_count := c.temp_count + 1,
                        symbol_to_temp :=
                          mapInsert c.symbol_to_temp name ("t" ++ toString c.temp_count),
                        last_access :=
                          mapInsert c.last_access name ("t" ++ toString c.temp_count) },
        out := [.assign ("t" ++ toString c.temp_count) name] } := by
  simp [genExpr, h]

/-- After any scalar read with `force_fresh_load` clear, the cache maps the
name to the returned temporary, the flag is still clear, and the counter
advanced by one. -/
theorem var_scalar_read (name ty : String) (c : Ctx) (h : c.force_fresh_load = false) :
    mapLookup ((genExpr (.var name ty none) c).ctx).symbol_to_temp name
        = some ((genExpr (.var name ty none) c).ret) ∧
    ((genExpr (.var name ty none) c).ctx).force_fresh_load = false ∧
    ((genExpr (.var name ty none) c).ctx).temp_count = c.temp_count + 1 := by
  rcases hm : mapLookup c.symbol_to_temp name with _ | v
  · rw [var_uncached name ty c (by simp [h, hm])]
    simpa using h
  · rw [var_cached name ty v c h hm]
    simpa [hm] using h

/-! ### The claims -/

/-- C5: starting from a fresh context, translating
`if (x) { y = 1; } else { y = 2; }` (scalar ints) emits exactly the eleven
lines `t0 = x`, `if t0 goto L0`, `goto L1`, `L0:`, `t1 = 1`, `y = t1`,
`goto L2`, `L1:`, `t2 = 2`, `y = t2`, `L2:`, in that order. -/
theorem C5_theorem :
    ((genStmt (.ifStmt (.var "x" "int" none)
        (some (.block [.exprStmt (some (.assign "y" "int" none (.const "1" "int") "int"))]))
        (some (.block [.exprStmt (some (.assign "y" "int" none (.const "2" "int") "int"))])))
      initCtx).out).map Instr.render =
    ["t0 = x", "if t0 goto L0", "goto L1", "L0:", "t1 = 1", "y = t1",
     "goto L2", "L1:", "t2 = 2", "y = t2", "L2:"] := by decide

/-- C9: a binary operation emits the left operand's instructions, then the
right operand's instructions (translated in the state left behind by the
left operand - so any call nested in the left operand emits strictly before
anything of the right operand), then exactly one `t = l OP r` instruction
on a fresh temporary, which is the result. -/
theorem C9_theorem (op : String) (l r : Expr) (ty : String) (c : Ctx) :
    (genExpr (.binop op l r ty) c).ret
        = "t" ++ toString (genExpr r (genExpr l c).ctx).ctx.temp_count ∧
    (genExpr (.binop op l r ty) c).out =
      (genExpr l c).out ++ (genExpr r (genExpr l c).ctx).out ++
        [.assign ("t" ++ toString (genExpr r (genExpr l c).ctx).ctx.temp_count)
          ((genExpr l c).ret ++ " " ++ op ++ " " ++ (genExpr r (genExpr l c).ctx).ret)] := by
  constructor <;> simp [genExpr]

/-- C10: a `for` whose condition unit is an expression statement wrapping a
null expression takes the present-condition path: the condition temporary
defaults to the literal `1`, no instruction is emitted, and the symbol
cache is still wholesale replaced by the (empty) refresh set, so it ends
empty - whereas with an absent condition unit the state is left untouched. -/
theorem C10_theorem (c : Ctx) :
    genForCond (some (.stmt (.exprStmt none))) c =
      { ret := "1",
        ctx := { c with symbol_to_temp := [], last_access := [],
                        force_fresh_load := false },
        out := [] } ∧
    genForCond none c = { ret := "1", ctx := c, out := [] } := by
  constructor
  · simp [genForCond, genForCondInner, condEntry, condExit, copyMap]
  · simp [genForCond]

/-- C2 counterexample: translating the indexed access `a[0]` from the fresh
context inserts a cache entry for the base name `a` (mapping it to the
element temporary `t0`), although no entry for `a` existed before - the
claim that an indexed access never inserts or updates a cache entry for the
base name is false on the code (`symbol_to_temp[name] = temp;` in
`VarNode::generate_code` runs for indexed accesses too). -/
theorem C2_counterexample :
    mapLookup initCtx.symbol_to_temp "a" = none ∧
    mapLookup ((genExpr (.var "a" "int" (some (.const "0" "int"))) initCtx).ctx).symbol_to_temp "a"
      = some "t0" ∧
    (genExpr (.var "a" "int" (some (.const "0" "int"))) initCtx).out =
      [.assign "t1" "0", .assign "t0" "a[t1]"] := by decide

/-- C2 (amended): an indexed variable access never consults the cache and
always emits a fresh load - the result is the fresh temporary
`t<temp_count>` whatever the cache holds, and the emitted code is the index
code followed by the `t = name[idx]` load - but, contrary to the original
claim, it does insert/update the cache entry of the base name with that
fresh temporary. -/
theorem C2_theorem (name ty : String) (ie : Expr) (c : Ctx) :
    (genExpr (.var name ty (some ie)) c).ret = "t" ++ toString c.temp_count ∧
    (genExpr (.var name ty (some ie)) c).out =
      (genExpr ie { c with temp_count := c.temp_count + 1 }).out ++
        [.assign ("t" ++ toString c.temp_count)
          (name ++ "[" ++ (genExpr ie { c with temp_count := c.temp_count + 1 }).ret ++ "]")] ∧
    mapLookup ((genExpr (.var name ty (some ie)) c).ctx).symbol_to_temp name
      = some ("t" ++ toString c.temp_count) := by
  refine ⟨?_, ?_, ?_⟩ <;> simp [genExpr]

/-- C6: a scalar variable read with `force_fresh_load` clear and a cache
entry present returns the cached temporary, emits no instruction, and still
advances the temporary counter by one; consequently two consecutive scalar
reads of the same variable (no intervening write, call or loop refresh)
return the same temporary and the second read emits nothing. -/
theorem C6_theorem (name ty v : String) (c c2 : Ctx)
    (h1 : c.force_fresh_load = false)
    (h2 : mapLookup c.symbol_to_temp name = some v)
    (h3 : c2.force_fresh_load = false) :
    genExpr (.var name ty none) c =
      { ret := v,
        ctx := { c with temp_count := c.temp_count + 1,
                        last_access := mapInsert c.last_access name v },
        out := [] } ∧
    (genExpr (.var name ty none) (genExpr (.var name ty none) c2).ctx).ret
        = (genExpr (.var name ty none) c2).ret ∧
    (genExpr (.var name ty none) (genExpr (.var name ty none) c2).ctx).out = [] := by
  obtain ⟨ha, hb, _⟩ := var_scalar_read name ty c2 h3
  have hsecond := var_cached name ty ((genExpr (.var name ty none) c2).ret)
    ((genExpr (.var name ty none) c2).ctx) hb ha
  exact ⟨var_cached name ty v c h1 h2, by rw [hsecond], by rw [hsecond]⟩

/-- C6 witness: from the fresh context, after loading `x` once (`t0 = x`),
a read of `x` under the resulting state reuses `t0`, emits nothing, and
advances the counter; reading twice more emits nothing either. -/
theorem C6_witness :
    ((genExpr (.var "x" "int" none) initCtx).ctx).force_fresh_load = false ∧
    mapLookup ((genExpr (.var "x" "int" none) initCtx).ctx).symbol_to_temp "x" = some "t0" ∧
    genExpr (.var "x" "int" none) (genExpr (.var "x" "int" none) initCtx).ctx =
      { ret := "t0",
        ctx := { (genExpr (.var "x" "int" none) initCtx).ctx with
                   temp_count := ((genExpr (.var "x" "int" none) initCtx).ctx).temp_count + 1,
                   last_access :=
                     mapInsert ((genExpr (.var "x" "int" none) initCtx).ctx).last_access
                       "x" "t0" },
        out := [] } := by
  have h := C6_theorem "x" "int" "t0" (genExpr (.var "x" "int" none) initCtx).ctx
    (genExpr (.var "x" "int" none) initCtx).ctx (by decide) (by decide) (by decide)
  exact ⟨by decide, by decide, h.1⟩

/-- Translating the argument list of a call whose arguments are all scalar
variable references leaves `symbol_to_temp` and `force_fresh_load`
untouched (the `VarNode` special case in `FuncCallNode::generate_code`
bypasses both). -/
theorem genCallArgs_scalarVars_cache (args : List Expr) :
    ∀ c : Ctx, (∀ a ∈ args, ∃ n t, a = Expr.var n t none) →
      ((genCallArgs args c).ctx).symbol_to_temp = c.symbol_to_temp ∧
      ((genCallArgs args c).ctx).force_fresh_load = c.force_fresh_load := by
  induction args with
  | nil => intro c _; exact ⟨rfl, rfl⟩
  | cons a rest ih =>
      intro c h
      obtain ⟨n, t, rfl⟩ := h a (by simp)
      have hrest : ∀ x ∈ rest, ∃ n t, x = Expr.var n t none :=
        fun x hx => h x (by simp [hx])
      have := ih { c with temp_count := c.temp_count + 1 } hrest
      simpa [genCallArgs] using this

def c3pre : Ctx := (genExpr (.var "x" "int" none) initCtx).ctx

def c3post : Ctx := (genExpr (.call "f" [] "int") c3pre).ctx

/-- C3 counterexample: after loading `x` into `t0` (so the cache holds
`x -> t0`), translating the call `f()` emits `t1 = call f, 0` but does not
invalidate the cache: the subsequent scalar read of `x` still returns the
pre-call temporary `t0` and emits no load - the claim that a call
invalidates the symbol cache is false on the code
(`FuncCallNode::generate_code` never touches `symbol_to_temp`). -/
theorem C3_counterexample :
    mapLookup c3pre.symbol_to_temp "x" = some "t0" ∧
    (genExpr (.call "f" [] "int") c3pre).out = [.assign "t1" "call f, 0"] ∧
    (genExpr (.var "x" "int" none) c3post).ret = "t0" ∧
    (genExpr (.var "x" "int" none) c3post).out = [] := by decide

/-- C3 (amended): translating a function-call expression does not
invalidate the symbol cache.  For a call whose arguments are all scalar
variable references (in particular an argument-free call), the cache and
the forced-fresh flag after the call equal those before it, and a
subsequent scalar read of a variable cached before the call reuses the
cached temporary and emits no load. -/
theorem C3_theorem (f ty : String) (args : List Expr) (c : Ctx)
    (hargs : ∀ a ∈ args, ∃ n t, a = Expr.var n t none) :
    ((genExpr (.call f args ty) c).ctx).symbol_to_temp = c.symbol_to_temp ∧
    ((genExpr (.call f args ty) c).ctx).force_fresh_load = c.force_fresh_load ∧
    (∀ x tyx v : String, c.force_fresh_load = false →
      mapLookup c.symbol_to_temp x = some v →
      (genExpr (.var x tyx none) (genExpr (.call f args ty) c).ctx).ret = v ∧
      (genExpr (.var x tyx none) (genExpr (.call f args ty) c).ctx).out = []) := by
  obtain ⟨hcache, hff⟩ := genCallArgs_scalarVars_cache args c hargs
  have hcall : ((genExpr (.call f args ty) c).ctx).symbol_to_temp
                  = ((genCallArgs args c).ctx).symbol_to_temp ∧
               ((genExpr (.call f args ty) c).ctx).force_fresh_load
                  = ((genCallArgs args c).ctx).force_fresh_load := by
    by_cases hv : ty = "void" <;> simp [genExpr, hv]
  refine ⟨hcall.1.trans hcache, hcall.2.trans hff, fun x tyx v hf hm => ?_⟩
  have hread := var_cached x tyx v ((genExpr (.call f args ty) c).ctx)
    (by rw [hcall.2, hff, hf]) (by rw [hcall.1, hcache]; exact hm)
  rw [hread]
  exact ⟨rfl, rfl⟩

/-- C3 witness: the amended claim at the concrete state of the
counterexample - an argument-free call from the state where `x` is cached
as `t0` preserves the cache, and the post-call read of `x` reuses `t0`
silently. -/
theorem C3_witness :
    ((genExpr (.call "f" [] "int") c3pre).ctx).symbol_to_temp = c3pre.symbol_to_temp ∧
    (genExpr (.var "x" "int" none) (genExpr (.call "f" [] "int") c3pre).ctx).ret = "t0" ∧
    (genExpr (.var "x" "int" none) (genExpr (.call "f" [] "int") c3pre).ctx).out = [] := by
  have h := C3_theorem "f" "int" [] c3pre (by intro a ha; cases ha)
  have h2 := h.2.2 "x" "int" "t0" (by decide) (by decide)
  exact ⟨h.1, h2.1, h2.2⟩

def c1f : FuncDecl :=
  { return_type := "int", name := "f", params := [],
    body := some (.block [.exprStmt (some (.var "x" "int" none))]) }

def c1g : FuncDecl :=
  { return_type := "int", name := "g", params := [],
    body := some (.block [.exprStmt (some (.var "x" "int" none))]) }

/-- C1 counterexample: in a program with two function units whose bodies
each read the scalar `x`, the first function loads into `t0` but the second
loads into `t1`, not `t0`: no instruction of the second function's segment
(after the first function's three lines) mentions `t0`, so the temporary
counter is not reset at function entry and the first temporary inside the
second function is not `t0`. -/
theorem C1_counterexample :
    (genProgram [.pfunc c1f, .pfunc c1g] initCtx).out =
      [.comment "Function: int f()", .assign "t0" "x", .blank,
       .comment "Function: int g()", .assign "t1" "x", .blank] ∧
    Instr.assign "t0" "x" ∉ (genProgram [.pfunc c1f, .pfunc c1g] initCtx).out.drop 3 := by
  decide

/-- C1 (amended): translating a function unit clears the symbol cache but
does not reset the temporary counter: the body is translated in the state
whose cache is empty and whose `temp_count` is the incoming value
(unchanged, not zero), and the counter only ever grows across the function,
so temporary numbering continues monotonically across function units
instead of restarting at `t0`. -/
theorem C1_theorem (f : FuncDecl) (c : Ctx) (b : Stmt) (hb : f.body = some b) :
    genFuncDecl f c =
      { ctx := (genStmt b (funcEntry c)).ctx,
        out := funcHeader f :: (genStmt b (funcEntry c)).out ++ [Instr.blank] } ∧
    (funcEntry c).symbol_to_temp = [] ∧
    (funcEntry c).temp_count = c.temp_count ∧
    c.temp_count ≤ ((genFuncDecl f c).ctx).temp_count := by
  exact ⟨by simp [genFuncDecl, genOptStmt, hb], rfl, rfl, (genFuncDecl_gok f c).1⟩

/-- C1 witness: the amended claim instantiated at the first demo function
and the fresh context. -/
theorem C1_witness :
    c1f.body = some (.block [.exprStmt (some (.var "x" "int" none))]) ∧
    (genFuncDecl c1f initCtx =
      { ctx := (genStmt (.block [.exprStmt (some (.var "x" "int" none))])
                  (funcEntry initCtx)).ctx,
        out := funcHeader c1f
          :: (genStmt (.block [.exprStmt (some (.var "x" "int" none))])
                (funcEntry initCtx)).out ++ [Instr.blank] } ∧
     (funcEntry initCtx).symbol_to_temp = [] ∧
     (funcEntry initCtx).temp_count = initCtx.temp_count ∧
     initCtx.temp_count ≤ ((genFuncDecl c1f initCtx).ctx).temp_count) :=
  ⟨rfl, C1_theorem c1f initCtx (.block [.exprStmt (some (.var "x" "int" none))]) rfl⟩

/-- C4: with a present condition unit, a `for` header translates the
condition in forced-fresh mode starting from a cleared refresh record, and
afterwards the symbol cache equals exactly the refresh set recorded during
that condition translation (`last_access`): all old entries are dropped and
every recorded entry is present, and the forced-fresh flag ends clear.  A
`while` header performs no such replacement: its condition is translated
cache-respectingly, so a cached scalar condition variable is reused with no
load emitted in the header. -/
theorem C4_theorem :
    (∀ (cp : ForPart) (c : Ctx),
      (condEntry c).force_fresh_load = true ∧
      (condEntry c).last_access = [] ∧
      ((genForCond (some cp) c).ctx).symbol_to_temp
          = ((genForCond (some cp) c).ctx).last_access ∧
      ((genForCond (some cp) c).ctx).last_access
          = ((genForCondInner cp (condEntry c)).ctx).last_access ∧
      ((genForCond (some cp) c).ctx).force_fresh_load = false) ∧
    (∀ (x ty v : String) (body : Option Stmt) (c : Ctx),
      c.force_fresh_load = false → mapLookup c.symbol_to_temp x = some v →
      (genStmt (.whileStmt (.var x ty none) body) c).out =
        .label c.label_count :: .ifGoto v (c.label_count + 1) :: .goto (c.label_count + 2)
          :: .label (c.label_count + 1)
          :: ((genOptStmt body (genExpr (.var x ty none) (bumpLabels c)).ctx).out
              ++ [.goto c.label_count, .label (c.label_count + 2)])) ∧
    (∀ (x ty v : String) (thenB elseB : Option Stmt) (c : Ctx),
      c.force_fresh_load = false → mapLookup c.symbol_to_temp x = some v →
      (genStmt (.ifStmt (.var x ty none) thenB elseB) c).out =
        .ifGoto v c.label_count :: .goto (c.label_count + 1) :: .label c.label_count
          :: ((genOptStmt thenB (bumpLabels (genExpr (.var x ty none) c).ctx)).out ++
              .goto (c.label_count + 2) :: .label (c.label_count + 1)
                :: ((genOptStmt elseB
                      (genOptStmt thenB
                        (bumpLabels (genExpr (.var x ty none) c).ctx)).ctx).out
                    ++ [.label (c.label_count + 2)]))) := by
  refine ⟨?_, ?_, ?_⟩
  · intro cp c
    have hnod : (((genForCondInner cp (condEntry c)).ctx).last_access.map Prod.fst).Nodup :=
      (genForCondInner_gok cp (condEntry c)).2.2.2 (by simp)
    refine ⟨rfl, rfl, ?_, ?_, ?_⟩
    · simpa [genForCond] using copyMap_eq_self _ hnod
    · simp [genForCond]
    · simp [genForCond]
  · intro x ty v body c hf hm
    have hc := var_cached x ty v (bumpLabels c) (by simpa using hf) (by simpa using hm)
    simp [genStmt, hc]
  · intro x ty v thenB elseB c hf hm
    have hc := var_cached x ty v c hf hm
    simp [genStmt, hc]

def c4ctx : Ctx := (genExpr (.var "x" "int" none) initCtx).ctx

/-- C4 witness: the `for`-header replacement at a concrete condition, and
the `while` header with the cached variable `x -> t0` emitting no load. -/
theorem C4_witness :
    ((genForCond (some (.expr (.var "x" "int" none))) initCtx).ctx).symbol_to_temp
        = ((genForCond (some (.expr (.var "x" "int" none))) initCtx).ctx).last_access ∧
    c4ctx.force_fresh_load = false ∧
    mapLookup c4ctx.symbol_to_temp "x" = some "t0" ∧
    (genStmt (.whileStmt (.var "x" "int" none) none) c4ctx).out =
      .label c4ctx.label_count :: .ifGoto "t0" (c4ctx.label_count + 1)
        :: .goto (c4ctx.label_count + 2) :: .label (c4ctx.label_count + 1)
        :: ((genOptStmt none (genExpr (.var "x" "int" none) (bumpLabels c4ctx)).ctx).out
            ++ [.goto c4ctx.label_count, .label (c4ctx.label_count + 2)]) := by
  have h := C4_theorem
  exact ⟨(h.1 (.expr (.var "x" "int" none)) initCtx).2.2.1, by decide, by decide,
         h.2.1 "x" "int" "t0" none c4ctx (by decide) (by decide)⟩

/-- C7: in a call, an argument that is a variable reference is loaded into
a fresh temporary regardless of the cache state (scalar and indexed forms),
any other argument translates normally, and each argument is followed by
exactly one `param` line, in argument order; a call with result type
`void` emits `call f, n` and returns no temporary, any other call
allocates a fresh temporary and emits `t = call f, n`. -/
theorem C7_theorem :
    (∀ (name ty : String) (rest : List Expr) (c : Ctx),
      (genCallArgs (.var name ty none :: rest) c).out =
        .assign ("t" ++ toString c.temp_count) name
          :: .param ("t" ++ toString c.temp_count)
          :: (genCallArgs rest { c with temp_count := c.temp_count + 1 }).out) ∧
    (∀ (name ty : String) (ie : Expr) (rest : List Expr) (c : Ctx),
      (genCallArgs (.var name ty (some ie) :: rest) c).out =
        (genExpr ie { c with temp_count := c.temp_count + 1 }).out ++
          [.assign ("t" ++ toString c.temp_count)
              (name ++ "[" ++ (genExpr ie { c with temp_count := c.temp_count + 1 }).ret ++ "]"),
            .param ("t" ++ toString c.temp_count)] ++
          (genCallArgs rest (genExpr ie { c with temp_count := c.temp_count + 1 }).ctx).out) ∧
    (∀ (e : Expr) (rest : List Expr) (c : Ctx), (∀ n t i, e ≠ .var n t i) →
      (genCallArgs (e :: rest) c).out =
        (genExpr e c).out ++
          .param (genExpr e c).ret :: (genCallArgs rest (genExpr e c).ctx).out) ∧
    (∀ (f : String) (args : List Expr) (c : Ctx),
      genExpr (.call f args "void") c =
        { ret := "", ctx := (genCallArgs args c).ctx,
          out := (genCallArgs args c).out ++ [.callVoid f args.length] }) ∧
    (∀ (f ty : String) (args : List Expr) (c : Ctx), ty ≠ "void" →
      genExpr (.call f args ty) c =
        { ret := "t" ++ toString ((genCallArgs args c).ctx).temp_count,
          ctx := { (genCallArgs args c).ctx with
                     temp_count := ((genCallArgs args c).ctx).temp_count + 1 },
          out := (genCallArgs args c).out ++
            [.assign ("t" ++ toString ((genCallArgs args c).ctx).temp_count)
              ("call " ++ f ++ ", " ++ toString args.length)] }) := by
  refine ⟨?_, ?_, ?_, ?_, ?_⟩
  · intro name ty rest c; simp [genCallArgs]
  · intro name ty ie rest c; simp [genCallArgs]
  · intro e rest c h
    cases e with
    | var n t i => exact absurd rfl (h n t i)
    | const v t => simp [genCallArgs]
    | unop o a t => simp [genCallArgs]
    | binop o a b t => simp [genCallArgs]
    | assign ln lt li r t => simp [genCallArgs]
    | call g as t => simp [genCallArgs]
  · intro f args c; simp [genExpr]
  · intro f ty args c h; simp [genExpr, h]

/-- C7 witness: a constant argument translated normally with its single
`param` line, and a non-void argument-free call allocating its fresh result
temporary. -/
theorem C7_witness :
    ((genCallArgs [Expr.const "1" "int"] initCtx).out =
      (genExpr (.const "1" "int") initCtx).out ++
        .param (genExpr (.const "1" "int") initCtx).ret
          :: (genCallArgs [] (genExpr (.const "1" "int") initCtx).ctx).out) ∧
    genExpr (.call "f" [] "int") initCtx =
      { ret := "t" ++ toString ((genCallArgs [] initCtx).ctx).temp_count,
        ctx := { (genCallArgs [] initCtx).ctx with
                   temp_count := ((genCallArgs [] initCtx).ctx).temp_count + 1 },
        out := (genCallArgs [] initCtx).out ++
          [.assign ("t" ++ toString ((genCallArgs [] initCtx).ctx).temp_count)
            ("call " ++ "f" ++ ", " ++ toString (([] : List Expr)).length)] } := by
  have h := C7_theorem
  exact ⟨h.2.2.1 (.const "1" "int") [] initCtx (fun n t i hh => Expr.noConfusion hh),
         h.2.2.2.2 "f" "int" [] initCtx (by decide)⟩

/-- C8: over a whole-program translation the label counter only grows
(never reset, in particular not at function boundaries), every emitted
label-definition line `Lk:` has `k` in the interval of labels allocated by
this translation, and the label-definition lines are pairwise distinct. -/
theorem C8_theorem (units : List ProgUnit) (c : Ctx) :
    c.label_count ≤ ((genProgram units c).ctx).label_count ∧
    (∀ l ∈ labelsOf (genProgram units c).out,
        c.label_count ≤ l ∧ l < ((genProgram units c).ctx).label_count) ∧
    (labelsOf (genProgram units c).out).Nodup := by
  obtain ⟨_h1, h2, h3, _h4⟩ := genProgram_gok units c
  refine ⟨h2, fun l hl => ?_, ?_⟩
  · have hcnt := h3 l
    have hpos : 0 < List.count l (labelsOf (genProgram units c).out) :=
      List.count_pos_iff.mpr hl
    by_cases hcond : c.label_count ≤ l ∧ l < ((genProgram units c).ctx).label_count
    · exact hcond
    · rw [if_neg hcond] at hcnt; omega
  · rw [List.nodup_iff_count_le_one]
    intro a
    have hcnt := h3 a
    split_ifs at hcnt <;> omega

def c8prog : List ProgUnit :=
  [.pfunc { return_type := "int", name := "f", params := [],
            body := some (.block [.ifStmt (.var "x" "int" none) (some (.exprStmt none)) none]) },
   .pfunc { return_type := "int", name := "g", params := [],
            body := some (.block [.whileStmt (.var "y" "int" none) none]) }]

/-- C8 witness: a two-function program whose `if` and `while` statements
define labels `L0..L5`, all distinct, continuing across the function
boundary. -/
theorem C8_witness :
    labelsOf (genProgram c8prog initCtx).out = [0, 1, 2, 3, 4, 5] ∧
    (labelsOf (genProgram c8prog initCtx).out).Nodup :=
  ⟨by decide, (C8_theorem c8prog initCtx).2.2⟩

end MiniC
